import Mathlib

/-!
Shallow embedding of the Wingbeat swarm work-distribution engine
(src/core/subgraph.rs, src/swarm/tornado.rs,
src/computation/model_decomposer.rs, src/computation/prompt_processor.rs).

Conventions of the embedding:
* Uuid values become natural numbers drawn from a monotone counter.
* Randomness (rand::random, thread_rng().gen_range) becomes explicit
  streams inside a generator state Gen: a stream of rationals (modelling
  the f32 draws; rand::random for f32 yields a value in the interval
  from 0 inclusive to 1 exclusive) and a stream of naturals (modelling
  usize draws); every draw advances the corresponding stream index.
* f32 arithmetic is modelled exactly over the rationals.
* HashMap values become association lists; insertion overwrites an
  existing key in place and otherwise appends, and list order models the
  (unspecified) iteration order of the map.
* Async methods suspend only at lock acquisition; the embedding models
  their sequential effect on the guarded state.
-/

namespace Wingbeat

/-- Generator state: the Uuid counter plus the two random streams. -/
structure Gen where
  nextId : Nat
  floats : Nat → ℚ
  fIdx : Nat
  nats : Nat → Nat
  nIdx : Nat

/-- Draw a fresh Uuid (modelled as the next counter value). -/
def Gen.freshId (g : Gen) : Nat × Gen :=
  (g.nextId, { g with nextId := g.nextId + 1 })

/-- Draw the next value of the float stream (models rand::random for f32). -/
def Gen.freshFloat (g : Gen) : ℚ × Gen :=
  (g.floats g.fIdx, { g with fIdx := g.fIdx + 1 })

/-- Draw the next value of the nat stream (models rand::random for usize). -/
def Gen.freshNat (g : Gen) : Nat × Gen :=
  (g.nats g.nIdx, { g with nIdx := g.nIdx + 1 })

/-- A generator whose streams are constantly zero; used for concrete runs. -/
def zeroGen : Gen :=
  { nextId := 0, floats := fun _ => 0, fIdx := 0, nats := fun _ => 0, nIdx := 0 }

/-- src/core/subgraph.rs: enum Operation. -/
inductive Operation where
  | Transform (s : String)
  | Split
  | Merge
  | Process (s : String)
  | Filter (s : String)
  | Aggregate
deriving DecidableEq

/-- src/core/subgraph.rs: enum NodeState. -/
inductive NodeState where
  | Idle
  | Processing
  | Splitting
  | Merging
  | Complete
deriving DecidableEq

/-- src/core/subgraph.rs: struct ComputeNode. -/
structure ComputeNode where
  id : Nat
  operation : Operation
  state : NodeState
  metadata : List (String × String)
deriving DecidableEq

/-- src/core/subgraph.rs: struct Subgraph.  The petgraph graph is used by
the core only through its node weights (add_node, node_weights), so it is
modelled by the list of its compute nodes. -/
structure Subgraph where
  id : Nat
  graph : List ComputeNode
  parent : Option Nat
  children : List Nat
  tornado_strength : ℚ
deriving DecidableEq

/-- Subgraph::new: fresh id, empty graph, no parent, no children, random
tornado_strength (rand::random for f32). -/
def Subgraph.new (g : Gen) : Subgraph × Gen :=
  let ig := g.freshId
  let sg := ig.2.freshFloat
  ({ id := ig.1, graph := [], parent := none, children := [],
     tornado_strength := sg.1 }, sg.2)

/-- The loop body of Subgraph::split: each iteration creates a fresh child
subgraph, sets its parent to the id of self and pushes the child id onto
the children list of self. -/
def Subgraph.splitLoop : Nat → Subgraph → Gen → List Subgraph × Subgraph × Gen
  | 0, s, g => ([], s, g)
  | n + 1, s, g =>
      let cg := Subgraph.new g
      let child := { cg.1 with parent := some s.id }
      let s1 := { s with children := s.children ++ [child.id] }
      let r := Subgraph.splitLoop n s1 cg.2
      (child :: r.1, r.2.1, r.2.2)

/-- Subgraph::split: produce num_splits fresh children (returned list),
the updated self, and the advanced generator. -/
def Subgraph.split (s : Subgraph) (num_splits : Nat) (g : Gen) :
    List Subgraph × Subgraph × Gen :=
  Subgraph.splitLoop num_splits s g

/-- Subgraph::merge: append the compute nodes of other to the graph of
self and average the tornado strengths.  The Rust method always returns
Ok, so the embedding returns the updated subgraph directly. -/
def Subgraph.merge (s o : Subgraph) : Subgraph :=
  { s with
      graph := s.graph ++ o.graph,
      tornado_strength := (s.tornado_strength + o.tornado_strength) / 2 }

/-- Subgraph::can_connect_with: the strengths differ by less than 0.3. -/
def Subgraph.can_connect_with (s o : Subgraph) : Bool :=
  decide (|s.tornado_strength - o.tornado_strength| < 3 / 10)

/-! ### Association-list model of HashMap -/

/-- HashMap::insert: overwrite the entry with the given key in place, or
append a new entry when the key is absent. -/
def insertA {α : Type} (k : Nat) (v : α) : List (Nat × α) → List (Nat × α)
  | [] => [(k, v)]
  | (k0, v0) :: rest =>
      if k0 = k then (k, v) :: rest else (k0, v0) :: insertA k v rest

/-- HashMap::get: the value stored under a key, if any. -/
def lookupA {α : Type} (k : Nat) : List (Nat × α) → Option α
  | [] => none
  | (k0, v0) :: rest => if k0 = k then some v0 else lookupA k rest

/-- HashMap::get_mut followed by a mutation: apply the function to the
value stored under the key, when present; otherwise leave the map alone. -/
def updateVal {α : Type} (k : Nat) (f : α → α) : List (Nat × α) → List (Nat × α)
  | [] => []
  | (k0, v0) :: rest =>
      if k0 = k then (k0, f v0) :: rest else (k0, v0) :: updateVal k f rest

/-- HashMap::remove: the removed value (if the key was present) and the
map without that entry. -/
def removeKey {α : Type} (k : Nat) : List (Nat × α) → Option α × List (Nat × α)
  | [] => (none, [])
  | (k0, v0) :: rest =>
      if k0 = k then (some v0, rest)
      else
        let r := removeKey k rest
        (r.1, (k0, v0) :: r.2)

/-- Replace the element at a given index by the image under f (the model
of in-place mutation of one element of a Vec). -/
def updateAt {α : Type} : Nat → (α → α) → List α → List α
  | _, _, [] => []
  | 0, f, a :: l => f a :: l
  | n + 1, f, a :: l => a :: updateAt n f l

/-! ### Worker (src/swarm/tornado.rs) -/

/-- src/swarm/tornado.rs: struct Vec3 (coordinates modelled as rationals). -/
structure Vec3 where
  x : ℚ
  y : ℚ
  z : ℚ
deriving DecidableEq

def Vec3.new (x y z : ℚ) : Vec3 := ⟨x, y, z⟩

/-- src/swarm/tornado.rs: struct Tornado.  The lock-guarded HashMap from
subgraph id to subgraph becomes an association list. -/
structure Tornado where
  id : Nat
  eye : Vec3
  radius : ℚ
  angular_velocity : ℚ
  height : ℚ
  subgraphs : List (Nat × Subgraph)

/-- Tornado::new: fresh id; radius, angular velocity and height drawn by
thread_rng().gen_range from the intervals [5,20), [0.5,2), [10,50),
modelled as lo + (hi - lo) * u with u the next float-stream draw. -/
def Tornado.new (position : Vec3) (g : Gen) : Tornado × Gen :=
  let ig := g.freshId
  let rg := ig.2.freshFloat
  let ag := rg.2.freshFloat
  let hg := ag.2.freshFloat
  ({ id := ig.1, eye := position, radius := 5 + 15 * rg.1,
     angular_velocity := 1 / 2 + (3 / 2) * ag.1, height := 10 + 40 * hg.1,
     subgraphs := [] }, hg.2)

/-- Tornado::sweep_up: insert the subgraph into the map keyed by its id. -/
def Tornado.sweep_up (t : Tornado) (subgraph : Subgraph) : Tornado :=
  { t with subgraphs := insertA subgraph.id subgraph t.subgraphs }

/-- The double loop of Tornado::spin over the key list: every unordered
pair (i < j) whose subgraphs satisfy can_connect_with is reported. -/
def spinPairs (l : List (Nat × Subgraph)) : List (Nat × Nat) :=
  (List.range l.length).flatMap fun i =>
    ((List.range l.length).filter fun j => decide (i < j) &&
        Subgraph.can_connect_with (l.getD i (0, (Subgraph.new zeroGen).1)).2
          (l.getD j (0, (Subgraph.new zeroGen).1)).2).map
      fun j => ((l.getD i (0, (Subgraph.new zeroGen).1)).1,
                (l.getD j (0, (Subgraph.new zeroGen).1)).1)

/-- Tornado::spin: read-only scan; with fewer than two subgraphs it
returns immediately, otherwise it reports the connecting pairs.  The map
itself is never modified. -/
def Tornado.spin (t : Tornado) : List (Nat × Nat) :=
  if t.subgraphs.length < 2 then [] else spinPairs t.subgraphs

/-- The loop of Tornado::release: remove the listed keys one by one,
collecting the removed subgraphs in order. -/
def releaseLoop : List Nat → List (Nat × Subgraph) →
    List Subgraph × List (Nat × Subgraph)
  | [], m => ([], m)
  | k :: ks, m =>
      match removeKey k m with
      | (some sg, m1) =>
          let r := releaseLoop ks m1
          (sg :: r.1, r.2)
      | (none, m1) => releaseLoop ks m1

/-- Tornado::release: remove and return up to count subgraphs, walking the
first min(count, len) keys of the map in iteration order. -/
def Tornado.release (t : Tornado) (count : Nat) : List Subgraph × Tornado :=
  let keys := t.subgraphs.map Prod.fst
  let r := releaseLoop (keys.take (min count keys.length)) t.subgraphs
  (r.1, { t with subgraphs := r.2 })

/-! ### WorkerPool (src/swarm/tornado.rs) -/

/-- src/swarm/tornado.rs: struct TornadoSwarm (lock-guarded Vec of
tornadoes). -/
structure TornadoSwarm where
  tornadoes : List Tornado

/-- TornadoSwarm::new. -/
def TornadoSwarm.new : TornadoSwarm := ⟨[]⟩

/-- TornadoSwarm::spawn_tornado: append a freshly constructed tornado. -/
def TornadoSwarm.spawn_tornado (s : TornadoSwarm) (position : Vec3) (g : Gen) :
    TornadoSwarm × Gen :=
  let tg := Tornado.new position g
  (⟨s.tornadoes ++ [tg.1]⟩, tg.2)

/-- TornadoSwarm::simulate_step: per tornado, two floats are drawn for a
perturbed position that the source binds to an unused variable and
discards, and spin is invoked, which is read-only; so the pool itself is
unchanged and only the float stream advances. -/
def TornadoSwarm.simulate_step (s : TornadoSwarm) (_delta_time : ℚ) (g : Gen) :
    TornadoSwarm × Gen :=
  (s, { g with fIdx := g.fIdx + 2 * s.tornadoes.length })

/-! ### Decomposer (src/computation/model_decomposer.rs) -/

/-- src/computation/model_decomposer.rs: enum LayerType. -/
inductive LayerType where
  | Attention
  | FeedForward
  | Embedding
  | Output
  | Custom (s : String)
deriving DecidableEq

/-- The Debug rendering of a LayerType used in the Process tags. -/
def layerTypeName : LayerType → String
  | .Attention => "Attention"
  | .FeedForward => "FeedForward"
  | .Embedding => "Embedding"
  | .Output => "Output"
  | .Custom s => "Custom(" ++ s ++ ")"

/-- src/computation/model_decomposer.rs: struct ModelLayer. -/
structure ModelLayer where
  id : Nat
  layer_type : LayerType
  parameters : List (String × ℚ)
  input_size : Nat
  output_size : Nat
  dependencies : List Nat
deriving DecidableEq

/-- src/computation/model_decomposer.rs: struct ModelDecomposer. -/
structure ModelDecomposer where
  model_layers : List ModelLayer
  subgraph_mapping : List (Nat × Nat)

/-- src/computation/model_decomposer.rs: enum DecompositionStrategy. -/
inductive DecompositionStrategy where
  | LayerWise
  | AttentionHeads
  | TokenWise
deriving DecidableEq

/-- The LayerWise loop body: one subgraph per layer, holding a single
compute node tagged with the layer metadata. -/
def layerWiseUnit (l : ModelLayer) (g : Gen) : Subgraph × Gen :=
  let sgg := Subgraph.new g
  let ng := sgg.2.freshId
  let node : ComputeNode :=
    { id := ng.1, operation := .Process (layerTypeName l.layer_type),
      state := .Idle,
      metadata := [("layer_id", toString l.id),
                   ("layer_type", layerTypeName l.layer_type),
                   ("input_size", toString l.input_size),
                   ("output_size", toString l.output_size)] }
  ({ sgg.1 with graph := [node] }, ng.2)

/-- LayerWise loop over the layers: each iteration also records the pair
(layer id, subgraph id) in the subgraph mapping. -/
def layerWiseLoop : List ModelLayer → List (Nat × Nat) → Gen →
    List Subgraph × List (Nat × Nat) × Gen
  | [], mapping, g => ([], mapping, g)
  | l :: ls, mapping, g =>
      let ug := layerWiseUnit l g
      let mapping1 := insertA l.id ug.1.id mapping
      let r := layerWiseLoop ls mapping1 ug.2
      (ug.1 :: r.1, r.2.1, r.2.2)

/-- One attention-head subgraph of the AttentionHeads branch. -/
def headUnit (l : ModelLayer) (head : Nat) (g : Gen) : Subgraph × Gen :=
  let sgg := Subgraph.new g
  let ng := sgg.2.freshId
  let node : ComputeNode :=
    { id := ng.1, operation := .Process ("Attention_Head_" ++ toString head),
      state := .Idle,
      metadata := [("layer_id", toString l.id),
                   ("head_index", toString head),
                   ("head_count", "8")] }
  ({ sgg.1 with graph := [node] }, ng.2)

/-- The single subgraph produced for a non-Attention layer in the
AttentionHeads branch. -/
def attnOtherUnit (l : ModelLayer) (g : Gen) : Subgraph × Gen :=
  let sgg := Subgraph.new g
  let ng := sgg.2.freshId
  let node : ComputeNode :=
    { id := ng.1, operation := .Process (layerTypeName l.layer_type),
      state := .Idle,
      metadata := [("layer_id", toString l.id)] }
  ({ sgg.1 with graph := [node] }, ng.2)

/-- One token-chunk subgraph of the TokenWise branch. -/
def chunkUnit (l : ModelLayer) (chunk : Nat) (g : Gen) : Subgraph × Gen :=
  let sgg := Subgraph.new g
  let ng := sgg.2.freshId
  let node : ComputeNode :=
    { id := ng.1,
      operation := .Process (layerTypeName l.layer_type ++ "_TokenChunk_" ++ toString chunk),
      state := .Idle,
      metadata := [("layer_id", toString l.id),
                   ("chunk_index", toString chunk),
                   ("total_chunks", "4")] }
  ({ sgg.1 with graph := [node] }, ng.2)

/-- Run a per-index unit constructor over a list of indices, threading the
generator: the model of the inner head/chunk loops. -/
def unitsLoop (mk : Nat → Gen → Subgraph × Gen) : List Nat → Gen →
    List Subgraph × Gen
  | [], g => ([], g)
  | i :: is, g =>
      let ug := mk i g
      let r := unitsLoop mk is ug.2
      (ug.1 :: r.1, r.2)

/-- AttentionHeads loop over the layers: 8 head subgraphs for an
Attention layer, one subgraph otherwise; the subgraph mapping is not
touched in this branch. -/
def attnLoop : List ModelLayer → Gen → List Subgraph × Gen
  | [], g => ([], g)
  | l :: ls, g =>
      let usg :=
        match l.layer_type with
        | .Attention => unitsLoop (headUnit l) (List.range 8) g
        | _ =>
            let ug := attnOtherUnit l g
            ([ug.1], ug.2)
      let r := attnLoop ls usg.2
      (usg.1 ++ r.1, r.2)

/-- TokenWise loop over the layers: 4 chunk subgraphs for every layer
regardless of its type; the subgraph mapping is not touched. -/
def tokenLoop : List ModelLayer → Gen → List Subgraph × Gen
  | [], g => ([], g)
  | l :: ls, g =>
      let usg := unitsLoop (chunkUnit l) (List.range 4) g
      let r := tokenLoop ls usg.2
      (usg.1 ++ r.1, r.2)

/-- ModelDecomposer::decompose_model: returns the produced subgraphs, the
updated decomposer and the advanced generator.  Only the LayerWise branch
inserts into subgraph_mapping. -/
def ModelDecomposer.decompose_model (d : ModelDecomposer)
    (decomposition_strategy : DecompositionStrategy) (g : Gen) :
    List Subgraph × ModelDecomposer × Gen :=
  match decomposition_strategy with
  | .LayerWise =>
      let r := layerWiseLoop d.model_layers d.subgraph_mapping g
      (r.1, { d with subgraph_mapping := r.2.1 }, r.2.2)
  | .AttentionHeads =>
      let r := attnLoop d.model_layers g
      (r.1, d, r.2)
  | .TokenWise =>
      let r := tokenLoop d.model_layers g
      (r.1, d, r.2)

/-- ModelDecomposer::find_layer_for_subgraph: the first mapping entry
whose value is the given subgraph id, in map iteration order. -/
def ModelDecomposer.find_layer_for_subgraph (d : ModelDecomposer)
    (subgraph_id : Nat) : Option Nat :=
  match d.subgraph_mapping.find? fun kv => kv.2 = subgraph_id with
  | some kv => some kv.1
  | none => none

/-- Stable insertion of an entry into a key-sorted list: the entry goes
after every element of strictly smaller key and before every element of
greater or equal key. -/
def insertSorted (a : String × Nat) : List (String × Nat) → List (String × Nat)
  | [] => [a]
  | b :: l => if b.2 < a.2 then b :: insertSorted a l else a :: b :: l

/-- Stable sort by ascending key (the model of the stable
Vec::sort_by_key of the source): elements with equal keys keep their
original relative order. -/
def sortByKey : List (String × Nat) → List (String × Nat)
  | [] => []
  | a :: l => insertSorted a (sortByKey l)

/-- ModelDecomposer::reintegrate_results.  For each (subgraph id, result)
pair, in map iteration order: look the subgraph up in subgraph_mapping;
entries with no mapped layer are skipped.  The sort key is
layer_index * 1000 + chunk_index, where the source hardcodes
chunk_index = 0 (the line reads: let chunk_index = 0) even though its
comment says to extract the chunk or head index from the metadata.  The
surviving results are stably sorted by that key and joined by spaces. -/
def ModelDecomposer.reintegrate_results (d : ModelDecomposer)
    (subgraph_results : List (Nat × String)) : String :=
  let sorted0 : List (String × Nat) :=
    subgraph_results.filterMap fun kv =>
      match d.find_layer_for_subgraph kv.1 with
      | some layer_id =>
          match d.model_layers.findIdx? fun l => l.id = layer_id with
          | some layer_index =>
              let chunk_index := 0
              some (kv.2, layer_index * 1000 + chunk_index)
          | none => none
      | none => none
  let sorted := sortByKey sorted0
  String.intercalate " " (sorted.map Prod.fst)

/-! ### Orchestrator (src/computation/prompt_processor.rs) -/

/-- src/computation/prompt_processor.rs: enum PromptStatus. -/
inductive PromptStatus where
  | Sent
  | InWhirlwind
  | Processing
  | Assembling
  | Complete
deriving DecidableEq

/-- src/computation/prompt_processor.rs: struct PromptFragment. -/
structure PromptFragment where
  id : Nat
  content : String
  subgraph_id : Nat
  processed : Bool
deriving DecidableEq

/-- src/computation/prompt_processor.rs: struct SwarmPrompt. -/
structure SwarmPrompt where
  id : Nat
  content : String
  origin : Vec3
  status : PromptStatus
  fragments : List PromptFragment
deriving DecidableEq

/-- src/computation/prompt_processor.rs: struct PromptProcessor.  The
lock-guarded active-prompt HashMap becomes an association list. -/
structure PromptProcessor where
  swarm : TornadoSwarm
  active_prompts : List (Nat × SwarmPrompt)

/-- str::to_uppercase, modelled as the character-wise upper-casing of the
content (which agrees with the Rust function on ASCII content). -/
def toUpperStr (s : String) : String :=
  String.mk (s.data.map Char.toUpper)

/-- The whitespace word split used by fragment_prompt
(str::split_whitespace keeps only nonempty words). -/
def splitWords (prompt : String) : List String :=
  (prompt.splitOn " ").filter fun w => w ≠ ""

/-- The fragmentation loop of PromptProcessor::fragment_prompt: while
words remain, draw a fragment size in 1..3 (a usize draw taken modulo 3,
plus 1), take that many words as one fragment (fresh fragment id and
fresh subgraph id, in that order) and continue on the rest. -/
def fragmentLoop : List String → Gen → List PromptFragment × Gen
  | [], g => ([], g)
  | w :: ws, g =>
      let rg := g.freshNat
      let fragment_size := rg.1 % 3 + 1
      let chunk := (w :: ws).take fragment_size
      let restWords := (w :: ws).drop fragment_size
      let fg := rg.2.freshId
      let sgg := fg.2.freshId
      let frag : PromptFragment :=
        { id := fg.1, content := String.intercalate " " chunk,
          subgraph_id := sgg.1, processed := false }
      let r := fragmentLoop restWords sgg.2
      (frag :: r.1, r.2)
termination_by ws _ => ws.length
decreasing_by
  simp only [List.length_drop, List.length_cons]
  omega

/-- PromptProcessor::fragment_prompt. -/
def fragment_prompt (prompt : String) (g : Gen) : List PromptFragment × Gen :=
  fragmentLoop (splitWords prompt) g

/-- The default-spawn policy of distribute_fragments: when the pool is
empty, spawn three tornadoes at positions (10 i, 5 i, 0) for i = 0, 1, 2. -/
def spawnDefaults (s : TornadoSwarm) (g : Gen) : TornadoSwarm × Gen :=
  (List.range 3).foldl
    (fun acc i => acc.1.spawn_tornado (Vec3.new (10 * i) (5 * i) 0) acc.2)
    (s, g)

/-- The subgraph built for one fragment inside distribute_fragments: a
fresh subgraph (consuming one Uuid and one float draw) whose graph then
receives a single Process node with the fragment content (consuming a
second Uuid). -/
def fragSubgraph (f : PromptFragment) (g : Gen) : Subgraph :=
  { (Subgraph.new g).1 with
      graph := [{ id := ((Subgraph.new g).2.freshId).1,
                  operation := .Process f.content, state := .Idle,
                  metadata := [] }] }

/-- The generator state after building one fragment subgraph (two Uuids
and one float consumed). -/
def fragGen (g : Gen) : Gen := ((Subgraph.new g).2.freshId).2

/-- The per-fragment loop of distribute_fragments: build the fragment
subgraph and sweep it into the tornado at index i mod pool length, where
i enumerates the fragments. -/
def sweepFragments : List PromptFragment → Nat → List Tornado → Gen →
    List Tornado × Gen
  | [], _, pool, g => (pool, g)
  | f :: fs, i, pool, g =>
      let sg := fragSubgraph f g
      let tornado_idx := i % pool.length
      let pool1 := updateAt tornado_idx (fun t => t.sweep_up sg) pool
      sweepFragments fs (i + 1) pool1 (fragGen g)

/-- PromptProcessor::distribute_fragments: spawn three default tornadoes
when the pool is empty, sweep every fragment into tornado i mod pool
length, then mark the prompt InWhirlwind in the active map. -/
def PromptProcessor.distribute_fragments (p : PromptProcessor)
    (prompt : SwarmPrompt) (g : Gen) : PromptProcessor × Gen :=
  let swg :=
    if p.swarm.tornadoes.isEmpty then spawnDefaults p.swarm g else (p.swarm, g)
  let poolg := sweepFragments prompt.fragments 0 swg.1.tornadoes swg.2
  let active1 :=
    updateVal prompt.id (fun q => { q with status := .InWhirlwind })
      p.active_prompts
  ({ swarm := ⟨poolg.1⟩, active_prompts := active1 }, poolg.2)

/-- PromptProcessor::send_prompt: fresh prompt id, fragment the prompt,
store the prompt (status Sent) in the active map, distribute the
fragments, and return the id. -/
def PromptProcessor.send_prompt (p : PromptProcessor) (prompt : String)
    (g : Gen) : Nat × PromptProcessor × Gen :=
  let ig := g.freshId
  let fg := fragment_prompt prompt ig.2
  let swarm_prompt : SwarmPrompt :=
    { id := ig.1, content := prompt, origin := Vec3.new 0 0 0,
      status := .Sent, fragments := fg.1 }
  let p1 := { p with active_prompts := insertA ig.1 swarm_prompt p.active_prompts }
  let pg := p1.distribute_fragments swarm_prompt fg.2
  (ig.1, pg.1, pg.2)

/-- PromptProcessor::process_step: simulate_step on the swarm, then a
read-only spin of every tornado; the processor state is unchanged and
only the generator advances. -/
def PromptProcessor.process_step (p : PromptProcessor) (delta_time : ℚ)
    (g : Gen) : PromptProcessor × Gen :=
  let swg := p.swarm.simulate_step delta_time g
  ({ p with swarm := swg.1 }, swg.2)

/-- Iterated process_step calls (n time steps). -/
def processSteps : Nat → PromptProcessor → ℚ → Gen → PromptProcessor × Gen
  | 0, p, _, g => (p, g)
  | n + 1, p, dt, g =>
      let pg := p.process_step dt g
      processSteps n pg.1 dt pg.2

/-- PromptProcessor::collect_results: when the id is present, set the
prompt status to Assembling, upper-case the stored content, set the
status to Complete, and return the upper-cased content; when the id is
absent, return none.  The entry is never removed from the map. -/
def PromptProcessor.collect_results (p : PromptProcessor) (prompt_id : Nat) :
    Option String × PromptProcessor :=
  match lookupA prompt_id p.active_prompts with
  | some prompt =>
      let active1 :=
        updateVal prompt_id (fun q => { q with status := .Complete })
          p.active_prompts
      (some (toUpperStr prompt.content), { p with active_prompts := active1 })
  | none => (none, p)

/-! ### Auxiliary definitions for the statements -/

/-- A default tornado, used only as the default of list indexing. -/
def defaultTornado : Tornado :=
  { id := 0, eye := ⟨0, 0, 0⟩, radius := 0, angular_velocity := 0, height := 0,
    subgraphs := [] }

/-- Every subgraph id held by any tornado of the pool is below the bound:
the well-formedness invariant tying held ids to the Uuid counter. -/
def PoolFresh (pool : List Tornado) (n : Nat) : Prop :=
  ∀ t ∈ pool, ∀ kv ∈ t.subgraphs, kv.1 < n

/-- Total number of subgraphs held across a pool of tornadoes. -/
def sumLens (pool : List Tornado) : Nat :=
  (pool.map fun t => t.subgraphs.length).sum

/-- How many subgraphs the AttentionHeads branch produces for one layer:
8 for an Attention layer, 1 for any other layer. -/
def headYield (l : ModelLayer) : Nat :=
  match l.layer_type with
  | .Attention => 8
  | _ => 1

/-- A processor over a fresh empty swarm with no active prompts. -/
def emptyProc : PromptProcessor := ⟨TornadoSwarm.new, []⟩

/-- A single attention layer, used for concrete decomposition runs. -/
def attnLayer : ModelLayer :=
  { id := 0, layer_type := .Attention, parameters := [], input_size := 768,
    output_size := 768, dependencies := [] }

/-- A single feed-forward layer, used for concrete decomposition runs. -/
def ffLayer : ModelLayer :=
  { id := 1, layer_type := .FeedForward, parameters := [], input_size := 768,
    output_size := 768, dependencies := [0] }

/-- A fresh decomposer holding one attention layer. -/
def attnOnly : ModelDecomposer := ⟨[attnLayer], []⟩

/-- A fresh decomposer holding an attention layer and a feed-forward
layer with distinct ids. -/
def twoLayers : ModelDecomposer := ⟨[attnLayer, ffLayer], []⟩

/-- A generator whose float stream is constantly one half. -/
def halfGen : Gen :=
  { nextId := 0, floats := fun _ => 1 / 2, fIdx := 0, nats := fun _ => 0,
    nIdx := 0 }

/-- A concrete subgraph of strength one half. -/
def sgHalf : Subgraph :=
  { id := 100, graph := [], parent := none, children := [], tornado_strength := 1 / 2 }

/-- A concrete subgraph of strength one quarter. -/
def sgQuarter : Subgraph :=
  { id := 101, graph := [], parent := none, children := [], tornado_strength := 1 / 4 }

/-- A concrete two-fragment prompt, used for concrete distribution runs. -/
def twoFragPrompt : SwarmPrompt :=
  { id := 0, content := "Test prompt", origin := ⟨0, 0, 0⟩, status := .Sent,
    fragments := [{ id := 1, content := "Test", subgraph_id := 2, processed := false },
                  { id := 3, content := "prompt", subgraph_id := 4, processed := false }] }

/-! ### Lemmas about the split loop -/

theorem splitLoop_spec (n : Nat) : ∀ (s : Subgraph) (g : Gen),
    (Subgraph.splitLoop n s g).1.length = n
    ∧ (Subgraph.splitLoop n s g).2.1.id = s.id
    ∧ (Subgraph.splitLoop n s g).2.1.tornado_strength = s.tornado_strength
    ∧ (Subgraph.splitLoop n s g).2.1.children
        = s.children ++ (Subgraph.splitLoop n s g).1.map Subgraph.id
    ∧ (∀ c ∈ (Subgraph.splitLoop n s g).1, c.parent = some s.id) := by
  induction n with
  | zero =>
      intro s g
      simp [Subgraph.splitLoop]
  | succ m ih =>
      intro s g
      have h := ih { s with children := s.children ++ [(Subgraph.new g).1.id] }
        (Subgraph.new g).2
      simp only [Subgraph.splitLoop]
      refine ⟨by simpa using h.1, by simpa using h.2.1, by simpa using h.2.2.1, ?_, ?_⟩
      · have h4 := h.2.2.2.1
        simp only [List.map_cons]
        rw [h4]
        simp
      · intro c hc
        rw [List.mem_cons] at hc
        rcases hc with hc | hc
        · simp [hc]
        · exact h.2.2.2.2 c hc

theorem splitLoop_strength_from_stream (n : Nat) : ∀ (s : Subgraph) (g : Gen),
    ∀ c ∈ (Subgraph.splitLoop n s g).1, ∃ k, c.tornado_strength = g.floats k := by
  induction n with
  | zero => intro s g c hc; simp [Subgraph.splitLoop] at hc
  | succ m ih =>
      intro s g c hc
      simp only [Subgraph.splitLoop] at hc
      rw [List.mem_cons] at hc
      rcases hc with hc | hc
      · exact ⟨g.fIdx, by simp [hc, Subgraph.new, Gen.freshId, Gen.freshFloat]⟩
      · have := ih { s with children := s.children ++ [(Subgraph.new g).1.id] }
          (Subgraph.new g).2 c hc
        simpa [Subgraph.new, Gen.freshId, Gen.freshFloat] using this

/-- Claim C9: split(n) returns exactly n new WorkUnits, each with parent
equal to the id of the original; it appends exactly n ids (those of the
returned units) to the children list of the original; and a repeated
split extends the children list further instead of resetting it. -/
theorem split_children_spec (s : Subgraph) (n : Nat) (g : Gen) (m : Nat)
    (g2 : Gen) :
    (s.split n g).1.length = n
    ∧ (∀ c ∈ (s.split n g).1, c.parent = some s.id)
    ∧ (s.split n g).2.1.children = s.children ++ (s.split n g).1.map Subgraph.id
    ∧ (s.split n g).2.1.children.length = s.children.length + n
    ∧ ((s.split n g).2.1.split m g2).2.1.children
        = s.children ++ (s.split n g).1.map Subgraph.id
            ++ ((s.split n g).2.1.split m g2).1.map Subgraph.id
    ∧ ((s.split n g).2.1.split m g2).2.1.children.length
        = s.children.length + n + m := by
  have h1 := splitLoop_spec n s g
  have h2 := splitLoop_spec m (Subgraph.splitLoop n s g).2.1 g2
  refine ⟨h1.1, h1.2.2.2.2, h1.2.2.2.1, ?_, ?_, ?_⟩
  · rw [Subgraph.split, h1.2.2.2.1]
    simp [h1.1]
  · rw [Subgraph.split, Subgraph.split, h2.2.2.2.1, h1.2.2.2.1, List.append_assoc]
  · rw [Subgraph.split, Subgraph.split, h2.2.2.2.1, h1.2.2.2.1]
    simp [h1.1, h2.1]
    omega

/-- Claim C6: the affinity (tornado_strength) of a WorkUnit lies in the
interval from 0 inclusive to 1 exclusive at creation (given that the
random f32 draws lie there), no operation changes it except merge (split
leaves the strength of the original unchanged and gives every child a
fresh draw from the stream), and merge sets it to the arithmetic mean of
the two strengths, which lies in the same interval again. -/
theorem tornado_strength_invariant (g : Gen)
    (hg : ∀ k, 0 ≤ g.floats k ∧ g.floats k < 1)
    (s o : Subgraph)
    (hs : 0 ≤ s.tornado_strength ∧ s.tornado_strength < 1)
    (ho : 0 ≤ o.tornado_strength ∧ o.tornado_strength < 1) (n : Nat) :
    (0 ≤ (Subgraph.new g).1.tornado_strength
      ∧ (Subgraph.new g).1.tornado_strength < 1)
    ∧ (s.split n g).2.1.tornado_strength = s.tornado_strength
    ∧ (∀ c ∈ (s.split n g).1,
        0 ≤ c.tornado_strength ∧ c.tornado_strength < 1)
    ∧ (s.merge o).tornado_strength
        = (s.tornado_strength + o.tornado_strength) / 2
    ∧ (0 ≤ (s.merge o).tornado_strength ∧ (s.merge o).tornado_strength < 1) := by
  refine ⟨?_, (splitLoop_spec n s g).2.2.1, ?_, rfl, ?_⟩
  · simpa [Subgraph.new, Gen.freshId, Gen.freshFloat] using hg g.fIdx
  · intro c hc
    obtain ⟨k, hk⟩ := splitLoop_strength_from_stream n s g c hc
    rw [hk]
    exact hg k
  · constructor
    · have h1 := hs.1
      have h2 := ho.1
      simp only [Subgraph.merge]
      linarith
    · have h1 := hs.2
      have h2 := ho.2
      simp only [Subgraph.merge]
      linarith

/-- Witness for C6 at a concrete generator (constant stream one half) and
concrete subgraphs of strengths one half and one quarter. -/
theorem tornado_strength_invariant_witness :
    (0 ≤ (Subgraph.new halfGen).1.tornado_strength
      ∧ (Subgraph.new halfGen).1.tornado_strength < 1)
    ∧ (sgHalf.split 2 halfGen).2.1.tornado_strength = sgHalf.tornado_strength
    ∧ (∀ c ∈ (sgHalf.split 2 halfGen).1,
        0 ≤ c.tornado_strength ∧ c.tornado_strength < 1)
    ∧ (sgHalf.merge sgQuarter).tornado_strength
        = (sgHalf.tornado_strength + sgQuarter.tornado_strength) / 2
    ∧ (0 ≤ (sgHalf.merge sgQuarter).tornado_strength
        ∧ (sgHalf.merge sgQuarter).tornado_strength < 1) :=
  tornado_strength_invariant halfGen
    (fun k => by constructor <;> norm_num [halfGen])
    sgHalf sgQuarter
    (by constructor <;> norm_num [sgHalf])
    (by constructor <;> norm_num [sgQuarter]) 2

/-- Claim C7: can_connect_with is the pure total predicate deciding
whether the strengths differ in absolute value by less than 0.3; it is
symmetric; strengths one half and three fifths connect while one tenth
and nine tenths do not. -/
theorem can_connect_with_spec :
    (∀ a b : Subgraph, a.can_connect_with b
        = decide (|a.tornado_strength - b.tornado_strength| < 3 / 10))
    ∧ (∀ a b : Subgraph, a.can_connect_with b = b.can_connect_with a)
    ∧ Subgraph.can_connect_with
        { id := 0, graph := [], parent := none, children := [],
          tornado_strength := 1 / 2 }
        { id := 1, graph := [], parent := none, children := [],
          tornado_strength := 3 / 5 } = true
    ∧ Subgraph.can_connect_with
        { id := 2, graph := [], parent := none, children := [],
          tornado_strength := 1 / 10 }
        { id := 3, graph := [], parent := none, children := [],
          tornado_strength := 9 / 10 } = false := by
  refine ⟨fun a b => rfl, fun a b => ?_,
    by simp [Subgraph.can_connect_with, abs_sub_lt_iff]; norm_num,
    by simp [Subgraph.can_connect_with, abs_sub_lt_iff]; norm_num⟩
  simp [Subgraph.can_connect_with, abs_sub_comm]

/-! ### Lemmas about release -/

theorem releaseLoop_take (l : List (Nat × Subgraph)) : ∀ n : Nat,
    releaseLoop ((l.map Prod.fst).take n) l
      = ((l.take n).map Prod.snd, l.drop n) := by
  induction l with
  | nil => intro n; simp [releaseLoop]
  | cons kv rest ih =>
      intro n
      cases n with
      | zero => simp [releaseLoop]
      | succ m =>
          simp only [List.map_cons, List.take_succ_cons, releaseLoop,
            removeKey, eq_self_iff_true, if_true]
          rw [ih m]
          simp

/-- Claim C8: release(count) on a Worker holding h units returns exactly
min(count, h) units, leaves exactly h minus min(count, h) units in the
map, and the returned units together with the remaining ones are exactly
the original h units; the operation is total (it never waits for more
units). -/
theorem release_partition (t : Tornado) (count : Nat) :
    (t.release count).1.length = min count t.subgraphs.length
    ∧ (t.release count).2.subgraphs.length
        = t.subgraphs.length - min count t.subgraphs.length
    ∧ (t.release count).1 ++ (t.release count).2.subgraphs.map Prod.snd
        = t.subgraphs.map Prod.snd := by
  have hlen : (t.subgraphs.map Prod.fst).length = t.subgraphs.length :=
    List.length_map _ _
  simp only [Tornado.release, hlen, releaseLoop_take]
  refine ⟨?_, ?_, ?_⟩
  · simp [List.length_take]
  · simp [List.length_drop]
  · rw [← List.map_append, List.take_append_drop]

/-! ### Lemmas about decomposition -/

theorem unitsLoop_length (mk : Nat → Gen → Subgraph × Gen) :
    ∀ (is : List Nat) (g : Gen), (unitsLoop mk is g).1.length = is.length := by
  intro is
  induction is with
  | nil => intro g; simp [unitsLoop]
  | cons i tl ih => intro g; simp [unitsLoop, ih]

theorem layerWiseLoop_length :
    ∀ (ls : List ModelLayer) (mapping : List (Nat × Nat)) (g : Gen),
      (layerWiseLoop ls mapping g).1.length = ls.length := by
  intro ls
  induction ls with
  | nil => intro mapping g; simp [layerWiseLoop]
  | cons l tl ih => intro mapping g; simp [layerWiseLoop, ih]

theorem attnLoop_length : ∀ (ls : List ModelLayer) (g : Gen),
    (attnLoop ls g).1.length = (ls.map headYield).sum := by
  intro ls
  induction ls with
  | nil => intro g; simp [attnLoop]
  | cons l tl ih =>
      intro g
      simp only [attnLoop, List.map_cons, List.sum_cons]
      cases h : l.layer_type <;>
        simp [h, headYield, unitsLoop_length, ih] <;>
        omega

theorem tokenLoop_length : ∀ (ls : List ModelLayer) (g : Gen),
    (tokenLoop ls g).1.length = 4 * ls.length := by
  intro ls
  induction ls with
  | nil => intro g; simp [tokenLoop]
  | cons l tl ih =>
      intro g
      simp only [tokenLoop, List.length_append, List.length_cons,
        unitsLoop_length, ih]
      simp [List.length_range]
      ring

/-- Claim C5: LayerWise decomposition of an L-layer model yields exactly
L WorkUnits; AttentionHeads yields 8 WorkUnits per Attention layer (the
head count the source fixes) and exactly 1 per non-Attention layer, so
the total is the sum of headYield over the layers; TokenWise yields
exactly 4 WorkUnits (the chunk count the source fixes) per layer
regardless of layer type. -/
theorem decompose_unit_counts (d : ModelDecomposer) (g : Gen) :
    (d.decompose_model .LayerWise g).1.length = d.model_layers.length
    ∧ (d.decompose_model .AttentionHeads g).1.length
        = (d.model_layers.map headYield).sum
    ∧ (d.decompose_model .TokenWise g).1.length = 4 * d.model_layers.length := by
  refine ⟨?_, ?_, ?_⟩
  · simpa [ModelDecomposer.decompose_model] using
      layerWiseLoop_length d.model_layers d.subgraph_mapping g
  · simpa [ModelDecomposer.decompose_model] using
      attnLoop_length d.model_layers g
  · simpa [ModelDecomposer.decompose_model] using
      tokenLoop_length d.model_layers g

/-! ### Lemmas about the subgraph mapping -/

theorem self_mem_insertA {α : Type} (k : Nat) (v : α) :
    ∀ l : List (Nat × α), (k, v) ∈ insertA k v l := by
  intro l
  induction l with
  | nil => simp [insertA]
  | cons kv rest ih =>
      by_cases h : kv.1 = k
      · simp [insertA, h]
      · simp only [insertA]
        rw [if_neg ?_]
        · exact List.mem_cons_of_mem _ ih
        · exact h

theorem mem_insertA_of_ne {α : Type} (k k2 : Nat) (v v2 : α)
    (hne : k ≠ k2) : ∀ l : List (Nat × α),
    (k, v) ∈ l → (k, v) ∈ insertA k2 v2 l := by
  intro l
  induction l with
  | nil => intro h; simp at h
  | cons kv rest ih =>
      intro h
      rw [List.mem_cons] at h
      simp only [insertA]
      by_cases hk : kv.1 = k2
      · rw [if_pos hk]
        rcases h with h | h
        · exact absurd ((congrArg Prod.fst h).trans hk) hne
        · exact List.mem_cons_of_mem _ h
      · rw [if_neg hk]
        rcases h with h | h
        · rw [List.mem_cons]
          exact Or.inl (by rw [h])
        · exact List.mem_cons_of_mem _ (ih h)

theorem layerWiseLoop_entry_preserved (k : Nat) (v : Nat) :
    ∀ (ls : List ModelLayer) (mapping : List (Nat × Nat)) (g : Gen),
      (k, v) ∈ mapping → k ∉ ls.map ModelLayer.id →
      (k, v) ∈ (layerWiseLoop ls mapping g).2.1 := by
  intro ls
  induction ls with
  | nil => intro mapping g h _; simpa [layerWiseLoop] using h
  | cons l tl ih =>
      intro mapping g h hnot
      simp only [List.map_cons, List.mem_cons, not_or] at hnot
      simp only [layerWiseLoop]
      exact ih _ _ (mem_insertA_of_ne k l.id v _ hnot.1 mapping h) hnot.2

theorem layerWiseLoop_mapping_complete :
    ∀ (ls : List ModelLayer) (mapping : List (Nat × Nat)) (g : Gen),
      (ls.map ModelLayer.id).Nodup →
      ∀ u ∈ (layerWiseLoop ls mapping g).1,
        ∃ lid, (lid, u.id) ∈ (layerWiseLoop ls mapping g).2.1 := by
  intro ls
  induction ls with
  | nil => intro mapping g _ u hu; simp [layerWiseLoop] at hu
  | cons l tl ih =>
      intro mapping g hnodup u hu
      simp only [List.map_cons, List.nodup_cons] at hnodup
      simp only [layerWiseLoop] at hu ⊢
      rw [List.mem_cons] at hu
      rcases hu with hu | hu
      · refine ⟨l.id, ?_⟩
        rw [hu]
        exact layerWiseLoop_entry_preserved l.id _ tl _ _
          (self_mem_insertA _ _ _) hnodup.1
      · exact ih _ _ hnodup.2 u hu

/-- Counterexample for C3: with the AttentionHeads strategy on a single
Attention layer, decompose_model produces 8 WorkUnits but records no
entry at all in subgraph_mapping, so not every produced unit has a
mapping entry. -/
theorem decompose_mapping_missing_counterexample :
    ¬ ∀ u ∈ (attnOnly.decompose_model .AttentionHeads zeroGen).1,
        ∃ lid, (lid, u.id) ∈
          (attnOnly.decompose_model .AttentionHeads zeroGen).2.1.subgraph_mapping := by
  intro h
  have hmap : (attnOnly.decompose_model .AttentionHeads zeroGen).2.1.subgraph_mapping
      = [] := rfl
  have hlen : (attnOnly.decompose_model .AttentionHeads zeroGen).1.length = 8 := by
    simpa [attnOnly, attnLayer] using (decompose_unit_counts attnOnly zeroGen).2.1
  have hne : (attnOnly.decompose_model .AttentionHeads zeroGen).1 ≠ [] := by
    intro hnil
    rw [hnil] at hlen
    simp at hlen
  obtain ⟨u, hu⟩ := List.exists_mem_of_ne_nil _ hne
  obtain ⟨lid, hmem⟩ := h u hu
  rw [hmap] at hmem
  exact List.not_mem_nil _ hmem

/-- Claim C3 as amended: only the LayerWise branch records mapping
entries; there, every produced WorkUnit has an entry (given that layer
ids are distinct, as Uuids are), while the AttentionHeads and TokenWise
branches leave subgraph_mapping exactly as it was, recording nothing for
the units they produce. -/
theorem subgraph_mapping_layerwise_only (d : ModelDecomposer) (g : Gen)
    (hnodup : (d.model_layers.map ModelLayer.id).Nodup) :
    (∀ u ∈ (d.decompose_model .LayerWise g).1,
        ∃ lid, (lid, u.id) ∈ (d.decompose_model .LayerWise g).2.1.subgraph_mapping)
    ∧ (d.decompose_model .AttentionHeads g).2.1.subgraph_mapping
        = d.subgraph_mapping
    ∧ (d.decompose_model .TokenWise g).2.1.subgraph_mapping
        = d.subgraph_mapping := by
  refine ⟨?_, rfl, rfl⟩
  intro u hu
  exact layerWiseLoop_mapping_complete d.model_layers d.subgraph_mapping g
    hnodup u hu

/-- Witness for the amended C3 at a concrete two-layer decomposer. -/
theorem subgraph_mapping_layerwise_only_witness :
    (∀ u ∈ (twoLayers.decompose_model .LayerWise zeroGen).1,
        ∃ lid, (lid, u.id) ∈
          (twoLayers.decompose_model .LayerWise zeroGen).2.1.subgraph_mapping)
    ∧ (twoLayers.decompose_model .AttentionHeads zeroGen).2.1.subgraph_mapping
        = twoLayers.subgraph_mapping
    ∧ (twoLayers.decompose_model .TokenWise zeroGen).2.1.subgraph_mapping
        = twoLayers.subgraph_mapping :=
  subgraph_mapping_layerwise_only twoLayers zeroGen
    (by simp [twoLayers, attnLayer, ffLayer])

/-- Claim C4, the code evaluated at the failing input: TokenWise
decomposition of a one-layer model produces 4 WorkUnits carrying chunk
indices 0 to 3 in their metadata, yet reintegrate_results over results
for exactly those units returns the empty string: every result is
dropped (no mapping entry exists, and the carried chunk index is never
read since the source hardcodes chunk_index = 0). -/
theorem reintegrate_results_tokenwise_dropped :
    (attnOnly.decompose_model .TokenWise zeroGen).1.length = 4
    ∧ ((attnOnly.decompose_model .TokenWise zeroGen).2.1.reintegrate_results
        ((attnOnly.decompose_model .TokenWise zeroGen).1.map
          fun u => (u.id, "chunk"))) = "" := by
  constructor
  · simpa [attnOnly, attnLayer] using (decompose_unit_counts attnOnly zeroGen).2.2
  · rfl

/-! ### Lemmas about the active-prompt map -/

theorem lookupA_insertA_self {α : Type} (k : Nat) (v : α) :
    ∀ l : List (Nat × α), lookupA k (insertA k v l) = some v := by
  intro l
  induction l with
  | nil => simp [insertA, lookupA]
  | cons kv rest ih =>
      simp only [insertA]
      by_cases hk : kv.1 = k
      · rw [if_pos hk]
        simp [lookupA]
      · rw [if_neg hk]
        simp only [lookupA, if_neg hk]
        exact ih

theorem lookupA_updateVal {α : Type} (k : Nat) (f : α → α) :
    ∀ l : List (Nat × α), lookupA k (updateVal k f l) = (lookupA k l).map f := by
  intro l
  induction l with
  | nil => simp [updateVal, lookupA]
  | cons kv rest ih =>
      simp only [updateVal]
      by_cases hk : kv.1 = k
      · rw [if_pos hk]
        simp [lookupA, if_pos hk]
      · rw [if_neg hk]
        simp only [lookupA, if_neg hk]
        exact ih

/-- Claim C1: collecting an id obtained from send_prompt returns some of
the upper-cased original prompt content, and collecting an id that is
absent from the active-prompt map returns none (no panic: the function
is total). -/
theorem collect_results_send_prompt_roundtrip (p : PromptProcessor)
    (prompt : String) (g : Gen) (q : PromptProcessor) (missing_id : Nat)
    (hmissing : lookupA missing_id q.active_prompts = none) :
    ((p.send_prompt prompt g).2.1.collect_results (p.send_prompt prompt g).1).1
      = some (toUpperStr prompt)
    ∧ (q.collect_results missing_id).1 = none := by
  constructor
  · simp only [PromptProcessor.send_prompt, PromptProcessor.distribute_fragments,
      PromptProcessor.collect_results]
    rw [lookupA_updateVal, lookupA_insertA_self]
    rfl
  · simp only [PromptProcessor.collect_results, hmissing]

/-- Witness for C1: sending the prompt Test prompt into an empty
processor and collecting yields TEST PROMPT, while collecting the never
submitted id 7 on the empty processor yields none. -/
theorem collect_results_send_prompt_roundtrip_witness :
    ((emptyProc.send_prompt "Test prompt" zeroGen).2.1.collect_results
        (emptyProc.send_prompt "Test prompt" zeroGen).1).1 = some "TEST PROMPT"
    ∧ (emptyProc.collect_results 7).1 = none := by
  have h := collect_results_send_prompt_roundtrip emptyProc "Test prompt"
    zeroGen emptyProc 7 rfl
  exact ⟨h.1.trans (by decide), h.2⟩

/-- Claim C10: collect_results never removes the prompt from the
active-prompt map (the entry stays present), repeated collects return
the same value as the first, and the returned value is unchanged by any
number of process_step calls in between. -/
theorem collect_results_idempotent_nonconsuming (p : PromptProcessor)
    (prompt_id : Nat) (dt : ℚ) (g : Gen) (n : Nat) :
    (((p.collect_results prompt_id).2).collect_results prompt_id).1
        = (p.collect_results prompt_id).1
    ∧ (lookupA prompt_id (p.collect_results prompt_id).2.active_prompts).isSome
        = (lookupA prompt_id p.active_prompts).isSome
    ∧ ((processSteps n p dt g).1.collect_results prompt_id).1
        = (p.collect_results prompt_id).1 := by
  have hstep : ∀ (q : PromptProcessor) (d : ℚ) (h : Gen),
      (q.process_step d h).1 = q := by
    intro q d h
    rfl
  have hiter : ∀ (k : Nat) (q : PromptProcessor) (d : ℚ) (h : Gen),
      (processSteps k q d h).1 = q := by
    intro k
    induction k with
    | zero => intro q d h; rfl
    | succ m ih =>
        intro q d h
        simp only [processSteps]
        rw [hstep]
        exact ih q d _
  refine ⟨?_, ?_, ?_⟩
  · cases hl : lookupA prompt_id p.active_prompts with
    | none =>
        simp only [PromptProcessor.collect_results, hl]
    | some sp =>
        simp only [PromptProcessor.collect_results, hl]
        rw [lookupA_updateVal, hl]
        rfl
  · cases hl : lookupA prompt_id p.active_prompts with
    | none =>
        simp only [PromptProcessor.collect_results, hl]
    | some sp =>
        simp only [PromptProcessor.collect_results, hl]
        rw [lookupA_updateVal, hl]
        rfl
  · rw [hiter n p dt g]

/-! ### Lemmas about updateAt and insertA keys -/

theorem length_updateAt {α : Type} (f : α → α) :
    ∀ (n : Nat) (l : List α), (updateAt n f l).length = l.length := by
  intro n l
  induction l generalizing n with
  | nil => simp [updateAt]
  | cons a tl ih =>
      cases n with
      | zero => simp [updateAt]
      | succ m => simp [updateAt, ih]

theorem getD_updateAt_self {α : Type} (f : α → α) (d : α) :
    ∀ (l : List α) (n : Nat), n < l.length →
      (updateAt n f l).getD n d = f (l.getD n d) := by
  intro l
  induction l with
  | nil => intro n h; simp at h
  | cons a tl ih =>
      intro n h
      cases n with
      | zero => simp [updateAt]
      | succ m =>
          simp only [updateAt, List.getD_cons_succ]
          exact ih m (by simpa using h)

theorem getD_updateAt_ne {α : Type} (f : α → α) (d : α) :
    ∀ (l : List α) (n m : Nat), m ≠ n →
      (updateAt n f l).getD m d = l.getD m d := by
  intro l
  induction l with
  | nil => intro n m _; simp [updateAt]
  | cons a tl ih =>
      intro n m hne
      cases n with
      | zero =>
          cases m with
          | zero => exact absurd rfl hne
          | succ m2 => simp [updateAt]
      | succ n2 =>
          cases m with
          | zero => simp [updateAt]
          | succ m2 =>
              simp only [updateAt, List.getD_cons_succ]
              exact ih n2 m2 (by omega)

theorem mem_updateAt {α : Type} (f : α → α) :
    ∀ (n : Nat) (l : List α) (x : α), x ∈ updateAt n f l →
      x ∈ l ∨ ∃ y ∈ l, x = f y := by
  intro n l
  induction l generalizing n with
  | nil => intro x hx; simp [updateAt] at hx
  | cons a tl ih =>
      intro x hx
      cases n with
      | zero =>
          rw [updateAt, List.mem_cons] at hx
          rcases hx with hx | hx
          · exact Or.inr ⟨a, List.mem_cons_self a tl, hx⟩
          · exact Or.inl (List.mem_cons_of_mem a hx)
      | succ m =>
          rw [updateAt, List.mem_cons] at hx
          rcases hx with hx | hx
          · exact Or.inl (hx ▸ List.mem_cons_self a tl)
          · rcases ih m x hx with hx | ⟨y, hy, hxy⟩
            · exact Or.inl (List.mem_cons_of_mem a hx)
            · exact Or.inr ⟨y, List.mem_cons_of_mem a hy, hxy⟩

theorem mem_insertA_cases {α : Type} (k : Nat) (v : α) :
    ∀ (l : List (Nat × α)) (kv : Nat × α), kv ∈ insertA k v l →
      kv = (k, v) ∨ kv ∈ l := by
  intro l
  induction l with
  | nil => intro kv h; simpa [insertA] using h
  | cons a tl ih =>
      intro kv h
      simp only [insertA] at h
      by_cases hk : a.1 = k
      · rw [if_pos hk, List.mem_cons] at h
        rcases h with h | h
        · exact Or.inl h
        · exact Or.inr (List.mem_cons_of_mem a h)
      · rw [if_neg hk, List.mem_cons] at h
        rcases h with h | h
        · exact Or.inr (by rw [List.mem_cons]; exact Or.inl (by rw [h]))
        · rcases ih kv h with h | h
          · exact Or.inl h
          · exact Or.inr (List.mem_cons_of_mem a h)

theorem mem_keys_insertA {α : Type} (k k2 : Nat) (v2 : α) :
    ∀ l : List (Nat × α), k ∈ l.map Prod.fst →
      k ∈ (insertA k2 v2 l).map Prod.fst := by
  intro l
  induction l with
  | nil => intro h; simp at h
  | cons a tl ih =>
      intro h
      rw [List.map_cons, List.mem_cons] at h
      simp only [insertA]
      by_cases hk : a.1 = k2
      · rw [if_pos hk]
        rcases h with h | h
        · rw [List.map_cons, List.mem_cons]
          exact Or.inl (h.trans hk)
        · exact List.mem_cons_of_mem _ h
      · rw [if_neg hk]
        rcases h with h | h
        · rw [List.map_cons, List.mem_cons]
          exact Or.inl h
        · rw [List.map_cons, List.mem_cons]
          exact Or.inr (ih h)

theorem self_mem_keys_insertA {α : Type} (k : Nat) (v : α)
    (l : List (Nat × α)) : k ∈ (insertA k v l).map Prod.fst :=
  List.mem_map.mpr ⟨(k, v), self_mem_insertA k v l, rfl⟩

theorem length_insertA_not_mem {α : Type} (k : Nat) (v : α) :
    ∀ l : List (Nat × α), k ∉ l.map Prod.fst →
      (insertA k v l).length = l.length + 1 := by
  intro l
  induction l with
  | nil => intro _; simp [insertA]
  | cons a tl ih =>
      intro h
      rw [List.map_cons, List.mem_cons] at h
      push_neg at h
      simp only [insertA]
      rw [if_neg (fun hk => h.1 hk.symm)]
      simp [ih h.2]

theorem getD_mem {α : Type} (l : List α) (n : Nat) (d : α)
    (h : n < l.length) : l.getD n d ∈ l := by
  rw [List.getD_eq_getElem l d h]
  exact List.getElem_mem h

/-! ### Lemmas about the distribution loop -/

theorem fragSubgraph_id (f : PromptFragment) (g : Gen) :
    (fragSubgraph f g).id = g.nextId := rfl

theorem fragGen_nextId (g : Gen) : (fragGen g).nextId = g.nextId + 2 := rfl

theorem countP_range_shift (p : Nat → Bool) (n : Nat) :
    (List.range (n + 1)).countP p
      = (if p 0 then 1 else 0) + (List.range n).countP fun j => p (j + 1) := by
  rw [List.range_succ_eq_map, List.countP_cons, List.countP_map]
  have hcomp : (p ∘ Nat.succ) = fun j => p (j + 1) := rfl
  rw [hcomp]
  cases hp : p 0 <;> simp [hp, Nat.add_comm]

theorem poolFresh_updateAt_sweep (pool : List Tornado) (n n2 idx : Nat)
    (sg : Subgraph) (h : PoolFresh pool n) (hn : n ≤ n2) (hsg : sg.id < n2) :
    PoolFresh (updateAt idx (fun t => t.sweep_up sg) pool) n2 := by
  intro t ht kv hkv
  rcases mem_updateAt _ idx pool t ht with ht2 | ⟨y, hy, rfl⟩
  · exact lt_of_lt_of_le (h t ht2 kv hkv) hn
  · rcases mem_insertA_cases sg.id sg y.subgraphs kv hkv with rfl | hkv2
    · exact hsg
    · exact lt_of_lt_of_le (h y hy kv hkv2) hn

theorem map_eye_updateAt (sg : Subgraph) :
    ∀ (n : Nat) (pool : List Tornado),
      (updateAt n (fun t => t.sweep_up sg) pool).map Tornado.eye
        = pool.map Tornado.eye := by
  intro n pool
  induction pool generalizing n with
  | nil => simp [updateAt]
  | cons t tl ih =>
      cases n with
      | zero => simp [updateAt, Tornado.sweep_up]
      | succ m => simp [updateAt, ih]

theorem sumLens_updateAt_sweep (sg : Subgraph) :
    ∀ (pool : List Tornado) (idx : Nat), idx < pool.length →
      sg.id ∉ ((pool.getD idx defaultTornado).subgraphs.map Prod.fst) →
      sumLens (updateAt idx (fun t => t.sweep_up sg) pool)
        = sumLens pool + 1 := by
  intro pool
  induction pool with
  | nil => intro idx h _; simp at h
  | cons t tl ih =>
      intro idx h hnot
      cases idx with
      | zero =>
          simp only [updateAt, sumLens, List.map_cons, List.sum_cons,
            Tornado.sweep_up]
          rw [length_insertA_not_mem sg.id _ t.subgraphs (by simpa using hnot)]
          omega
      | succ m =>
          simp only [updateAt, sumLens, List.map_cons, List.sum_cons]
          have hrec := ih m (by simpa using h) (by simpa using hnot)
          simp only [sumLens] at hrec
          omega

theorem sweepFragments_length : ∀ (fs : List PromptFragment) (i : Nat)
    (pool : List Tornado) (g : Gen),
    (sweepFragments fs i pool g).1.length = pool.length := by
  intro fs
  induction fs with
  | nil => intro i pool g; rfl
  | cons f tl ih =>
      intro i pool g
      simp only [sweepFragments]
      rw [ih]
      exact length_updateAt _ _ pool

theorem sweepFragments_nextId : ∀ (fs : List PromptFragment) (i : Nat)
    (pool : List Tornado) (g : Gen),
    (sweepFragments fs i pool g).2.nextId = g.nextId + 2 * fs.length := by
  intro fs
  induction fs with
  | nil => intro i pool g; simp [sweepFragments]
  | cons f tl ih =>
      intro i pool g
      simp only [sweepFragments]
      rw [ih, fragGen_nextId]
      simp
      omega

theorem sweepFragments_fresh : ∀ (fs : List PromptFragment) (i : Nat)
    (pool : List Tornado) (g : Gen), PoolFresh pool g.nextId →
    PoolFresh (sweepFragments fs i pool g).1
      (sweepFragments fs i pool g).2.nextId := by
  intro fs
  induction fs with
  | nil => intro i pool g h; exact h
  | cons f tl ih =>
      intro i pool g h
      simp only [sweepFragments]
      apply ih
      rw [fragGen_nextId]
      refine poolFresh_updateAt_sweep pool g.nextId _ _ _ h (by omega) ?_
      rw [fragSubgraph_id]
      omega

theorem sweepFragments_eyes : ∀ (fs : List PromptFragment) (i : Nat)
    (pool : List Tornado) (g : Gen),
    (sweepFragments fs i pool g).1.map Tornado.eye = pool.map Tornado.eye := by
  intro fs
  induction fs with
  | nil => intro i pool g; rfl
  | cons f tl ih =>
      intro i pool g
      simp only [sweepFragments]
      rw [ih, map_eye_updateAt]

theorem notMem_keys_getD_of_fresh (pool : List Tornado) (g : Gen)
    (hfresh : PoolFresh pool g.nextId) (idx : Nat) (hidx : idx < pool.length) :
    g.nextId ∉ ((pool.getD idx defaultTornado).subgraphs.map Prod.fst) := by
  intro hk
  obtain ⟨kv, hkv, hk1⟩ := List.mem_map.mp hk
  have hlt := hfresh _ (getD_mem _ _ _ hidx) kv hkv
  omega

theorem sweepFragments_sum : ∀ (fs : List PromptFragment) (i : Nat)
    (pool : List Tornado) (g : Gen), PoolFresh pool g.nextId →
    0 < pool.length →
    sumLens (sweepFragments fs i pool g).1 = sumLens pool + fs.length := by
  intro fs
  induction fs with
  | nil => intro i pool g _ _; rfl
  | cons f tl ih =>
      intro i pool g hfresh hlen
      have hidx : i % pool.length < pool.length := Nat.mod_lt _ hlen
      have hnot := notMem_keys_getD_of_fresh pool g hfresh _ hidx
      simp only [sweepFragments]
      rw [ih (i + 1) _ _ ?_ ?_]
      · rw [sumLens_updateAt_sweep (fragSubgraph f g) pool _ hidx
          (by rw [fragSubgraph_id]; exact hnot)]
        simp only [List.length_cons]
        omega
      · rw [fragGen_nextId]
        refine poolFresh_updateAt_sweep pool g.nextId _ _ _ hfresh (by omega) ?_
        rw [fragSubgraph_id]
        omega
      · rw [length_updateAt]
        exact hlen

theorem sweepFragments_counts : ∀ (fs : List PromptFragment) (i : Nat)
    (pool : List Tornado) (g : Gen), PoolFresh pool g.nextId →
    0 < pool.length → ∀ w : Nat,
    ((sweepFragments fs i pool g).1.getD w defaultTornado).subgraphs.length
      = ((pool.getD w defaultTornado).subgraphs.length)
        + (List.range fs.length).countP
            (fun j => decide ((i + j) % pool.length = w)) := by
  intro fs
  induction fs with
  | nil => intro i pool g _ _ w; simp [sweepFragments]
  | cons f tl ih =>
      intro i pool g hfresh hlen w
      have hidx : i % pool.length < pool.length := Nat.mod_lt _ hlen
      have hnot := notMem_keys_getD_of_fresh pool g hfresh _ hidx
      have hfresh1 : PoolFresh
          (updateAt (i % pool.length) (fun t => t.sweep_up (fragSubgraph f g)) pool)
          (fragGen g).nextId := by
        rw [fragGen_nextId]
        refine poolFresh_updateAt_sweep pool g.nextId _ _ _ hfresh (by omega) ?_
        rw [fragSubgraph_id]
        omega
      have hlen1 : 0 <
          (updateAt (i % pool.length) (fun t => t.sweep_up (fragSubgraph f g)) pool).length := by
        rw [length_updateAt]
        exact hlen
      simp only [sweepFragments]
      rw [ih (i + 1) _ _ hfresh1 hlen1 w]
      rw [length_updateAt]
      rw [List.length_cons, countP_range_shift]
      have hshift2 : (fun j => decide ((i + (j + 1)) % pool.length = w))
          = fun j => decide ((i + 1 + j) % pool.length = w) := by
        funext j
        have he : i + (j + 1) = i + 1 + j := by omega
        rw [he]
      rw [← hshift2]
      by_cases hw : w = i % pool.length
      · rw [hw, getD_updateAt_self _ _ pool _ hidx]
        simp only [Tornado.sweep_up]
        rw [length_insertA_not_mem _ _ _ (by rw [fragSubgraph_id]; exact hnot)]
        simp only [Nat.add_zero]
        simp
        omega
      · rw [getD_updateAt_ne _ _ pool _ _ (fun hh => hw hh)]
        have hp0 : decide ((i + 0) % pool.length = w) = false := by
          simp only [Nat.add_zero, decide_eq_false_iff_not]
          exact fun hh => hw hh.symm
        rw [hp0]
        simp

theorem sweepFragments_keys_mono : ∀ (fs : List PromptFragment) (i : Nat)
    (pool : List Tornado) (g : Gen) (w k : Nat),
    k ∈ ((pool.getD w defaultTornado).subgraphs.map Prod.fst) →
    k ∈ (((sweepFragments fs i pool g).1.getD w defaultTornado).subgraphs.map
      Prod.fst) := by
  intro fs
  induction fs with
  | nil => intro i pool g w k h; exact h
  | cons f tl ih =>
      intro i pool g w k h
      simp only [sweepFragments]
      apply ih
      by_cases hw : w = i % pool.length
      · by_cases hlt : i % pool.length < pool.length
        · rw [hw, getD_updateAt_self _ _ pool _ hlt]
          simp only [Tornado.sweep_up]
          apply mem_keys_insertA
          rw [← hw]
          exact h
        · have hw2 : (updateAt (i % pool.length)
              (fun t => t.sweep_up (fragSubgraph f g)) pool).getD w defaultTornado
              = pool.getD w defaultTornado := by
            rw [List.getD_eq_getElem?_getD, List.getD_eq_getElem?_getD]
            rw [List.getElem?_eq_none, List.getElem?_eq_none]
            · rw [hw]; omega
            · rw [length_updateAt, hw]; omega
          rw [hw2]
          exact h
      · rw [getD_updateAt_ne _ _ pool _ _ (fun hh => hw hh)]
        exact h

theorem sweepFragments_new_keys : ∀ (fs : List PromptFragment) (i : Nat)
    (pool : List Tornado) (g : Gen), PoolFresh pool g.nextId →
    0 < pool.length → ∀ j < fs.length,
    (g.nextId + 2 * j) ∈
      (((sweepFragments fs i pool g).1.getD ((i + j) % pool.length)
        defaultTornado).subgraphs.map Prod.fst) := by
  intro fs
  induction fs with
  | nil => intro i pool g _ _ j hj; simp at hj
  | cons f tl ih =>
      intro i pool g hfresh hlen j hj
      have hidx : i % pool.length < pool.length := Nat.mod_lt _ hlen
      have hfresh1 : PoolFresh
          (updateAt (i % pool.length) (fun t => t.sweep_up (fragSubgraph f g)) pool)
          (fragGen g).nextId := by
        rw [fragGen_nextId]
        refine poolFresh_updateAt_sweep pool g.nextId _ _ _ hfresh (by omega) ?_
        rw [fragSubgraph_id]
        omega
      have hlen1 : 0 <
          (updateAt (i % pool.length) (fun t => t.sweep_up (fragSubgraph f g)) pool).length := by
        rw [length_updateAt]
        exact hlen
      simp only [sweepFragments]
      cases j with
      | zero =>
          apply sweepFragments_keys_mono
          rw [Nat.add_zero, Nat.mul_zero, Nat.add_zero]
          rw [getD_updateAt_self _ _ pool _ hidx]
          simp only [Tornado.sweep_up]
          rw [← fragSubgraph_id f g]
          exact self_mem_keys_insertA _ _ _
      | succ j2 =>
          have hkey := ih (i + 1) _ _ hfresh1 hlen1 j2 (by simpa using hj)
          rw [fragGen_nextId] at hkey
          rw [length_updateAt] at hkey
          have he1 : g.nextId + 2 + 2 * j2 = g.nextId + 2 * (j2 + 1) := by omega
          have he2 : i + 1 + j2 = i + (j2 + 1) := by omega
          rw [he1, he2] at hkey
          exact hkey

/-! ### Lemmas about the default-spawn policy -/

theorem range_three : List.range 3 = [0, 1, 2] := rfl

theorem spawnDefaults_length (s : TornadoSwarm) (g : Gen) :
    (spawnDefaults s g).1.tornadoes.length = s.tornadoes.length + 3 := by
  simp [spawnDefaults, range_three, TornadoSwarm.spawn_tornado]

theorem spawnDefaults_nextId (s : TornadoSwarm) (g : Gen) :
    (spawnDefaults s g).2.nextId = g.nextId + 3 := by
  simp [spawnDefaults, range_three, TornadoSwarm.spawn_tornado, Tornado.new,
    Gen.freshId, Gen.freshFloat]

theorem spawnDefaults_eyes (s : TornadoSwarm) (g : Gen)
    (h : s.tornadoes = []) :
    (spawnDefaults s g).1.tornadoes.map Tornado.eye
      = [Vec3.new 0 0 0, Vec3.new 10 5 0, Vec3.new 20 10 0] := by
  simp [spawnDefaults, range_three, TornadoSwarm.spawn_tornado, Tornado.new, h,
    Vec3.new]
  norm_num

theorem spawnDefaults_subgraphs (s : TornadoSwarm) (g : Gen)
    (h : s.tornadoes = []) :
    ∀ t ∈ (spawnDefaults s g).1.tornadoes, t.subgraphs = [] := by
  intro t ht
  simp [spawnDefaults, range_three, TornadoSwarm.spawn_tornado, h] at ht
  rcases ht with ht | ht | ht <;> rw [ht] <;> rfl

theorem spawnDefaults_fresh (s : TornadoSwarm) (g : Gen)
    (h : s.tornadoes = []) (n : Nat) :
    PoolFresh (spawnDefaults s g).1.tornadoes n := by
  intro t ht kv hkv
  rw [spawnDefaults_subgraphs s g h t ht] at hkv
  exact absurd hkv (List.not_mem_nil kv)

theorem spawnDefaults_sumLens (s : TornadoSwarm) (g : Gen)
    (h : s.tornadoes = []) :
    sumLens (spawnDefaults s g).1.tornadoes = 0 := by
  simp [spawnDefaults, range_three, TornadoSwarm.spawn_tornado, h, sumLens,
    Tornado.new]

theorem spawnDefaults_getD_subgraphs (s : TornadoSwarm) (g : Gen)
    (h : s.tornadoes = []) (w : Nat) :
    (((spawnDefaults s g).1.tornadoes.getD w defaultTornado)).subgraphs = [] := by
  by_cases hw : w < (spawnDefaults s g).1.tornadoes.length
  · exact spawnDefaults_subgraphs s g h _ (getD_mem _ _ _ hw)
  · rw [List.getD_eq_getElem?_getD, List.getElem?_eq_none (by omega)]
    rfl

/-- Claim C2: distributing a prompt whose fragmentation produced m
WorkUnits sends the j-th unit (the subgraph with the j-th freshly drawn
id) into Worker j mod p, where p is the pool size at distribution time;
when the pool is empty exactly 3 default Workers are first spawned at
the fixed offsets (0,0,0), (10,5,0), (20,10,0); every Worker receives
exactly the units whose index is congruent to its position, and the
total units received across the pool equals m. -/
theorem distribute_fragments_round_robin (p : PromptProcessor)
    (sp : SwarmPrompt) (g : Gen)
    (hfresh : PoolFresh p.swarm.tornadoes g.nextId) :
    ((p.distribute_fragments sp g).1.swarm.tornadoes.length
        = if p.swarm.tornadoes.isEmpty then 3 else p.swarm.tornadoes.length)
    ∧ (p.swarm.tornadoes = [] →
        (p.distribute_fragments sp g).1.swarm.tornadoes.map Tornado.eye
          = [Vec3.new 0 0 0, Vec3.new 10 5 0, Vec3.new 20 10 0])
    ∧ (∀ j < sp.fragments.length,
        (g.nextId + (if p.swarm.tornadoes.isEmpty then 3 else 0) + 2 * j)
          ∈ ((((p.distribute_fragments sp g).1.swarm.tornadoes.getD
                (j % (if p.swarm.tornadoes.isEmpty then 3
                      else p.swarm.tornadoes.length))
                defaultTornado)).subgraphs.map Prod.fst))
    ∧ (sumLens (p.distribute_fragments sp g).1.swarm.tornadoes
        = (if p.swarm.tornadoes.isEmpty then 0 else sumLens p.swarm.tornadoes)
          + sp.fragments.length)
    ∧ (∀ w : Nat,
        (((p.distribute_fragments sp g).1.swarm.tornadoes.getD w
            defaultTornado)).subgraphs.length
          = (if p.swarm.tornadoes.isEmpty then 0
             else ((p.swarm.tornadoes.getD w defaultTornado)).subgraphs.length)
            + (List.range sp.fragments.length).countP
                (fun j => decide (j % (if p.swarm.tornadoes.isEmpty then 3
                   else p.swarm.tornadoes.length) = w))) := by
  by_cases hemp : p.swarm.tornadoes.isEmpty = true
  · have hnil : p.swarm.tornadoes = [] := by
      rwa [List.isEmpty_iff] at hemp
    have hdist : (p.distribute_fragments sp g).1.swarm.tornadoes
        = (sweepFragments sp.fragments 0 (spawnDefaults p.swarm g).1.tornadoes
            (spawnDefaults p.swarm g).2).1 := by
      simp only [PromptProcessor.distribute_fragments, hemp, if_true]
    have hlen0 : (spawnDefaults p.swarm g).1.tornadoes.length = 3 := by
      rw [spawnDefaults_length, hnil]
      rfl
    have hfresh0 : PoolFresh (spawnDefaults p.swarm g).1.tornadoes
        (spawnDefaults p.swarm g).2.nextId :=
      spawnDefaults_fresh p.swarm g hnil _
    have hpos0 : 0 < (spawnDefaults p.swarm g).1.tornadoes.length := by
      rw [hlen0]
      omega
    refine ⟨?_, ?_, ?_, ?_, ?_⟩
    · rw [hdist, sweepFragments_length, hlen0, if_pos hemp]
    · intro _
      rw [hdist, sweepFragments_eyes]
      exact spawnDefaults_eyes p.swarm g hnil
    · intro j hj
      have hkey := sweepFragments_new_keys sp.fragments 0
        (spawnDefaults p.swarm g).1.tornadoes (spawnDefaults p.swarm g).2
        hfresh0 hpos0 j hj
      rw [spawnDefaults_nextId, hlen0, Nat.zero_add] at hkey
      rw [hdist, if_pos hemp, if_pos hemp]
      exact hkey
    · rw [hdist, sweepFragments_sum _ _ _ _ hfresh0 hpos0,
        spawnDefaults_sumLens p.swarm g hnil, if_pos hemp]
    · intro w
      have hcnt := sweepFragments_counts sp.fragments 0
        (spawnDefaults p.swarm g).1.tornadoes (spawnDefaults p.swarm g).2
        hfresh0 hpos0 w
      rw [hlen0, spawnDefaults_getD_subgraphs p.swarm g hnil w] at hcnt
      have hpred : (fun j => decide ((0 + j) % 3 = w))
          = fun j => decide (j % 3 = w) := by
        funext j
        rw [Nat.zero_add]
      rw [hpred] at hcnt
      rw [hdist, if_pos hemp, if_pos hemp, hcnt]
      rfl
  · have hne : p.swarm.tornadoes ≠ [] := by
      intro hh
      rw [hh] at hemp
      simp at hemp
    have hpos : 0 < p.swarm.tornadoes.length := List.length_pos.mpr hne
    have hempf : p.swarm.tornadoes.isEmpty = false := by
      simpa using hemp
    have hdist : (p.distribute_fragments sp g).1.swarm.tornadoes
        = (sweepFragments sp.fragments 0 p.swarm.tornadoes g).1 := by
      simp [PromptProcessor.distribute_fragments, hempf]
    refine ⟨?_, ?_, ?_, ?_, ?_⟩
    · rw [hdist, sweepFragments_length, if_neg hemp]
    · intro hnil
      exact absurd hnil hne
    · intro j hj
      have hkey := sweepFragments_new_keys sp.fragments 0
        p.swarm.tornadoes g hfresh hpos j hj
      rw [Nat.zero_add] at hkey
      rw [hdist, if_neg hemp, if_neg hemp]
      have he : g.nextId + 0 + 2 * j = g.nextId + 2 * j := by omega
      rw [he]
      exact hkey
    · rw [hdist, sweepFragments_sum _ _ _ _ hfresh hpos, if_neg hemp]
    · intro w
      have hcnt := sweepFragments_counts sp.fragments 0
        p.swarm.tornadoes g hfresh hpos w
      have hpred : (fun j => decide ((0 + j) % p.swarm.tornadoes.length = w))
          = fun j => decide (j % p.swarm.tornadoes.length = w) := by
        funext j
        rw [Nat.zero_add]
      rw [hpred] at hcnt
      rw [hdist, if_neg hemp, if_neg hemp, hcnt]

/-- Witness for C2: distributing the two-fragment prompt into an empty
pool spawns 3 default Workers at the fixed offsets, puts unit 0 into
Worker 0 and unit 1 into Worker 1, and the received counts sum to 2. -/
theorem distribute_fragments_round_robin_witness :
    ((emptyProc.distribute_fragments twoFragPrompt zeroGen).1.swarm.tornadoes.length
        = if emptyProc.swarm.tornadoes.isEmpty then 3
          else emptyProc.swarm.tornadoes.length)
    ∧ (emptyProc.swarm.tornadoes = [] →
        (emptyProc.distribute_fragments twoFragPrompt zeroGen).1.swarm.tornadoes.map
            Tornado.eye
          = [Vec3.new 0 0 0, Vec3.new 10 5 0, Vec3.new 20 10 0])
    ∧ (∀ j < twoFragPrompt.fragments.length,
        (zeroGen.nextId + (if emptyProc.swarm.tornadoes.isEmpty then 3 else 0)
            + 2 * j)
          ∈ ((((emptyProc.distribute_fragments twoFragPrompt zeroGen).1.swarm.tornadoes.getD
                (j % (if emptyProc.swarm.tornadoes.isEmpty then 3
                      else emptyProc.swarm.tornadoes.length))
                defaultTornado)).subgraphs.map Prod.fst))
    ∧ (sumLens (emptyProc.distribute_fragments twoFragPrompt zeroGen).1.swarm.tornadoes
        = (if emptyProc.swarm.tornadoes.isEmpty then 0
           else sumLens emptyProc.swarm.tornadoes)
          + twoFragPrompt.fragments.length)
    ∧ (∀ w : Nat,
        (((emptyProc.distribute_fragments twoFragPrompt zeroGen).1.swarm.tornadoes.getD
            w defaultTornado)).subgraphs.length
          = (if emptyProc.swarm.tornadoes.isEmpty then 0
             else ((emptyProc.swarm.tornadoes.getD w defaultTornado)).subgraphs.length)
            + (List.range twoFragPrompt.fragments.length).countP
                (fun j => decide (j % (if emptyProc.swarm.tornadoes.isEmpty then 3
                   else emptyProc.swarm.tornadoes.length) = w))) :=
  distribute_fragments_round_robin emptyProc twoFragPrompt zeroGen
    (fun t ht => absurd ht (List.not_mem_nil t))

end Wingbeat
